import Mathlib

/-!
Verification development for the `hashbin` repository.

The repository wraps hashing libraries (bcrypt, Argon2, PBKDF2, RSA) behind a
strategy holder and provides five regex-based hash-format classifiers plus a
validation decorator.  This file shallowly embeds those parts of the source:

* the regular expressions of `is-bcrypt.util.ts`, `is-md5.util.ts`,
  `is-sha.util.ts` and the argon2 classifier are embedded as values of a small
  star-free regex AST `RE` together with their standard language semantics
  `Matches` and an executable Brzozowski-derivative matcher `rmatch`, proved
  correct against `Matches`;
* the services (`HashBin`, `Argon2Service`, `Pbkdf2Strategy`, `BcryptService`,
  `RsaService`) are embedded as pure functions, with the external primitives
  (the bcrypt / argon2 / pbkdf2 library calls and salt generators) taken as
  function parameters, and with JavaScript dynamics (default parameters,
  truthiness, `undefined`, thrown `TypeError`s) made explicit.
-/

namespace Hashbin

/-! ## A star-free regex AST with bounded repetition, and its semantics -/

/-- Regular expressions over `Char`: the empty language, the empty string,
a single-character class given by a `Bool` predicate, concatenation and
alternation.  Bounded repetition `r{m,n}` and `r?` are derived forms. -/
inductive RE where
  | nul : RE
  | eps : RE
  | cls : (Char → Bool) → RE
  | cat : RE → RE → RE
  | alt : RE → RE → RE

/-- The standard language semantics of `RE`. -/
inductive Matches : RE → List Char → Prop where
  | eps : Matches .eps []
  | cls {p : Char → Bool} {c : Char} : p c = true → Matches (.cls p) [c]
  | cat {r1 r2 : RE} {l1 l2 : List Char} :
      Matches r1 l1 → Matches r2 l2 → Matches (.cat r1 r2) (l1 ++ l2)
  | altL {r1 r2 : RE} {l : List Char} : Matches r1 l → Matches (.alt r1 r2) l
  | altR {r1 r2 : RE} {l : List Char} : Matches r2 l → Matches (.alt r1 r2) l

theorem matches_nul {l : List Char} : Matches .nul l ↔ False := by
  constructor
  · intro h; cases h
  · intro h; cases h

theorem matches_eps {l : List Char} : Matches .eps l ↔ l = [] := by
  constructor
  · intro h; cases h; rfl
  · intro h; subst h; exact .eps

theorem matches_cls {p : Char → Bool} {l : List Char} :
    Matches (.cls p) l ↔ ∃ c, p c = true ∧ l = [c] := by
  constructor
  · intro h; cases h with
    | cls hp => exact ⟨_, hp, rfl⟩
  · rintro ⟨c, hp, rfl⟩; exact .cls hp

theorem matches_alt {a b : RE} {l : List Char} :
    Matches (.alt a b) l ↔ Matches a l ∨ Matches b l := by
  constructor
  · intro h; cases h with
    | altL h => exact Or.inl h
    | altR h => exact Or.inr h
  · rintro (h | h)
    · exact .altL h
    · exact .altR h

theorem matches_cat {a b : RE} {l : List Char} :
    Matches (.cat a b) l ↔ ∃ l1 l2, Matches a l1 ∧ Matches b l2 ∧ l1 ++ l2 = l := by
  constructor
  · intro h; cases h with
    | cat h1 h2 => exact ⟨_, _, h1, h2, rfl⟩
  · rintro ⟨l1, l2, h1, h2, rfl⟩; exact .cat h1 h2

/-! ## The executable matcher -/

/-- Does `r` accept the empty string? -/
def nullable : RE → Bool
  | .nul => false
  | .eps => true
  | .cls _ => false
  | .cat a b => nullable a && nullable b
  | .alt a b => nullable a || nullable b

/-- Smart concatenation (keeps derivative terms small). -/
def catS : RE → RE → RE
  | .nul, _ => .nul
  | _, .nul => .nul
  | .eps, b => b
  | a, .eps => a
  | a, b => .cat a b

/-- Smart alternation (keeps derivative terms small). -/
def altS : RE → RE → RE
  | .nul, b => b
  | a, .nul => a
  | a, b => .alt a b

/-- Brzozowski derivative of `r` with respect to the character `c`. -/
def deriv (r : RE) (c : Char) : RE :=
  match r with
  | .nul => .nul
  | .eps => .nul
  | .cls p => if p c then .eps else .nul
  | .cat a b =>
      if nullable a then altS (catS (deriv a c) b) (deriv b c)
      else catS (deriv a c) b
  | .alt a b => altS (deriv a c) (deriv b c)

/-- Executable full-string matcher: successive derivatives, then a final
nullability test.  `rmatch r l = true` iff `l` is in the language of `r`. -/
def rmatch (r : RE) (l : List Char) : Bool :=
  nullable (l.foldl deriv r)

theorem matches_catS {a b : RE} {l : List Char} :
    Matches (catS a b) l ↔ Matches (.cat a b) l := by
  cases a <;> cases b <;>
    simp [catS, matches_nul, matches_eps, matches_cat, matches_cls, matches_alt]

theorem matches_altS {a b : RE} {l : List Char} :
    Matches (altS a b) l ↔ Matches (.alt a b) l := by
  cases a <;> cases b <;>
    simp [altS, matches_nul, matches_eps, matches_cat, matches_cls, matches_alt]

theorem nullable_iff {r : RE} : nullable r = true ↔ Matches r [] := by
  induction r with
  | nul => simp [nullable, matches_nul]
  | eps => simp [nullable, matches_eps]
  | cls p => simp [nullable, matches_cls]
  | cat a b iha ihb =>
      simp only [nullable, Bool.and_eq_true, iha, ihb, matches_cat]
      constructor
      · rintro ⟨h1, h2⟩; exact ⟨[], [], h1, h2, rfl⟩
      · rintro ⟨l1, l2, h1, h2, happ⟩
        rcases List.append_eq_nil.mp happ with ⟨rfl, rfl⟩
        exact ⟨h1, h2⟩
  | alt a b iha ihb =>
      simp [nullable, matches_alt, iha, ihb]

theorem matches_deriv {r : RE} {c : Char} {l : List Char} :
    Matches (deriv r c) l ↔ Matches r (c :: l) := by
  induction r generalizing l with
  | nul => simp [deriv, matches_nul]
  | eps => simp [deriv, matches_nul, matches_eps]
  | cls p =>
      by_cases hp : p c = true
      · simp only [deriv]
        rw [if_pos hp]
        simp only [matches_eps, matches_cls]
        constructor
        · rintro rfl; exact ⟨c, hp, rfl⟩
        · rintro ⟨c', hc', heq⟩
          simp only [List.cons.injEq] at heq
          exact heq.2
      · simp only [deriv]
        rw [if_neg hp]
        simp only [matches_nul, matches_cls, false_iff]
        rintro ⟨c', hc', heq⟩
        simp only [List.cons.injEq] at heq
        rw [heq.1] at hp
        exact hp hc'
  | cat a b iha ihb =>
      have hsplit : Matches (.cat a b) (c :: l) ↔
          (Matches a [] ∧ Matches b (c :: l)) ∨
          (∃ l1 l2, Matches a (c :: l1) ∧ Matches b l2 ∧ l1 ++ l2 = l) := by
        rw [matches_cat]
        constructor
        · rintro ⟨l1, l2, h1, h2, happ⟩
          cases l1 with
          | nil => exact Or.inl ⟨h1, by simpa using happ ▸ h2⟩
          | cons x l1' =>
              simp only [List.cons_append, List.cons.injEq] at happ
              obtain ⟨rfl, rfl⟩ := happ
              exact Or.inr ⟨l1', l2, h1, h2, rfl⟩
        · rintro (⟨h1, h2⟩ | ⟨l1, l2, h1, h2, rfl⟩)
          · exact ⟨[], c :: l, h1, h2, rfl⟩
          · exact ⟨c :: l1, l2, h1, h2, rfl⟩
      by_cases hn : nullable a = true
      · simp only [deriv]
        rw [if_pos hn, matches_altS, matches_alt, matches_catS, matches_cat, hsplit]
        constructor
        · rintro (⟨l1, l2, h1, h2, rfl⟩ | h)
          · exact Or.inr ⟨l1, l2, iha.mp h1, h2, rfl⟩
          · exact Or.inl ⟨nullable_iff.mp hn, ihb.mp h⟩
        · rintro (⟨h1, h2⟩ | ⟨l1, l2, h1, h2, rfl⟩)
          · exact Or.inr (ihb.mpr h2)
          · exact Or.inl ⟨l1, l2, iha.mpr h1, h2, rfl⟩
      · simp only [deriv]
        rw [if_neg hn, matches_catS, matches_cat, hsplit]
        constructor
        · rintro ⟨l1, l2, h1, h2, rfl⟩
          exact Or.inr ⟨l1, l2, iha.mp h1, h2, rfl⟩
        · rintro (⟨h1, h2⟩ | ⟨l1, l2, h1, h2, rfl⟩)
          · rw [← nullable_iff] at h1; exact absurd h1 hn
          · exact ⟨l1, l2, iha.mpr h1, h2, rfl⟩
  | alt a b iha ihb =>
      simp [deriv, matches_altS, matches_alt, iha, ihb]

/-- Correctness of the executable matcher. -/
theorem rmatch_iff {r : RE} {l : List Char} : rmatch r l = true ↔ Matches r l := by
  induction l generalizing r with
  | nil => exact nullable_iff
  | cons c l ih =>
      show nullable ((c :: l).foldl deriv r) = true ↔ _
      rw [List.foldl_cons]
      exact (ih (r := deriv r c)).trans matches_deriv

/-! ## Derived regex forms: `r?`, `r{n}`, `r{m,n}`, literal words -/

/-- Regex `r?` — zero or one occurrence. -/
def ropt (r : RE) : RE := .alt .eps r

/-- Regex `r{n}` — exactly `n` occurrences. -/
def rePow (r : RE) : Nat → RE
  | 0 => .eps
  | n + 1 => .cat r (rePow r n)

/-- Regex `r{m,n}` — between `m` and `n` occurrences, encoded as the alternation of
`r{k}` for `k` from `m` to `n`. -/
def reRange (r : RE) (m n : Nat) : RE :=
  (List.range' m (n + 1 - m)).foldr (fun k acc => .alt (rePow r k) acc) .nul

/-- A single literal character. -/
def chr (a : Char) : RE := .cls (fun c => c == a)

/-- A literal word (a concatenation of literal characters). -/
def wordRE (w : List Char) : RE := w.foldr (fun ch acc => .cat (chr ch) acc) .eps

/-- How a JavaScript case-insensitive regex (the `i` flag, no `u` flag) matches
a literal ASCII pattern character `p`: the subject character must be `p` itself
or its ASCII uppercase form. -/
def ciCharB (p c : Char) : Bool := c == p || c == p.toUpper

/-- A literal word under the `i` flag: each character matched case-insensitively. -/
def ciWordRE (w : List Char) : RE := w.foldr (fun ch acc => .cat (.cls (ciCharB ch)) acc) .eps

/-- Pointwise case-insensitive equality of a subject `l` with a pattern word `w`. -/
def ciWordB : List Char → List Char → Bool
  | [], [] => true
  | p :: ps, c :: cs => ciCharB p c && ciWordB ps cs
  | _, _ => false

theorem matches_ropt {r : RE} {l : List Char} :
    Matches (ropt r) l ↔ l = [] ∨ Matches r l := by
  simp [ropt, matches_alt, matches_eps]

theorem matches_chr {a : Char} {l : List Char} :
    Matches (chr a) l ↔ l = [a] := by
  simp only [chr, matches_cls]
  constructor
  · rintro ⟨c, hc, rfl⟩
    simp only [beq_iff_eq] at hc
    rw [hc]
  · rintro rfl
    exact ⟨a, by simp, rfl⟩

theorem matches_rePow_cls {p : Char → Bool} {n : Nat} {l : List Char} :
    Matches (rePow (.cls p) n) l ↔ l.length = n ∧ ∀ c ∈ l, p c = true := by
  induction n generalizing l with
  | zero =>
      simp only [rePow, matches_eps]
      constructor
      · rintro rfl; simp
      · rintro ⟨h, _⟩; exact List.length_eq_zero.mp h
  | succ n ih =>
      simp only [rePow, matches_cat, matches_cls]
      constructor
      · rintro ⟨l1, l2, ⟨c, hc, rfl⟩, h2, rfl⟩
        obtain ⟨hlen, hall⟩ := ih.mp h2
        refine ⟨by simp [hlen], ?_⟩
        intro x hx
        rcases List.mem_cons.mp hx with rfl | hx
        · exact hc
        · exact hall x hx
      · rintro ⟨hlen, hall⟩
        cases l with
        | nil => simp at hlen
        | cons c l' =>
            refine ⟨[c], l', ⟨c, hall c (by simp), rfl⟩, ?_, rfl⟩
            exact ih.mpr ⟨by simpa using hlen, fun x hx => hall x (by simp [hx])⟩

theorem matches_reRange {r : RE} {m n : Nat} {l : List Char} :
    Matches (reRange r m n) l ↔ ∃ k, m ≤ k ∧ k ≤ n ∧ Matches (rePow r k) l := by
  have hfold : ∀ (L : List Nat),
      Matches (L.foldr (fun k acc => .alt (rePow r k) acc) .nul) l ↔
      ∃ k ∈ L, Matches (rePow r k) l := by
    intro L
    induction L with
    | nil => simp [matches_nul]
    | cons x L ih => simp [matches_alt, ih]
  rw [reRange, hfold]
  constructor
  · rintro ⟨k, hk, hm⟩
    rw [List.mem_range'_1] at hk
    exact ⟨k, hk.1, by omega, hm⟩
  · rintro ⟨k, h1, h2, hm⟩
    exact ⟨k, List.mem_range'_1.mpr ⟨h1, by omega⟩, hm⟩

theorem matches_reRange_cls {p : Char → Bool} {m n : Nat} {l : List Char} :
    Matches (reRange (.cls p) m n) l ↔
      m ≤ l.length ∧ l.length ≤ n ∧ ∀ c ∈ l, p c = true := by
  rw [matches_reRange]
  constructor
  · rintro ⟨k, h1, h2, hm⟩
    obtain ⟨rfl, hall⟩ := matches_rePow_cls.mp hm
    exact ⟨h1, h2, hall⟩
  · rintro ⟨h1, h2, hall⟩
    exact ⟨l.length, h1, h2, matches_rePow_cls.mpr ⟨rfl, hall⟩⟩

theorem matches_wordRE {w l : List Char} :
    Matches (wordRE w) l ↔ l = w := by
  induction w generalizing l with
  | nil => simp [wordRE, matches_eps]
  | cons a w ih =>
      simp only [wordRE, List.foldr_cons, matches_cat, matches_chr]
      constructor
      · rintro ⟨l1, l2, rfl, h2, rfl⟩
        rw [ih.mp h2]
        rfl
      · rintro rfl
        exact ⟨[a], w, rfl, ih.mpr rfl, rfl⟩

theorem matches_ciWordRE {w l : List Char} :
    Matches (ciWordRE w) l ↔ ciWordB w l = true := by
  induction w generalizing l with
  | nil =>
      cases l <;> simp [ciWordRE, matches_eps, ciWordB]
  | cons a w ih =>
      simp only [ciWordRE, List.foldr_cons, matches_cat, matches_cls]
      constructor
      · rintro ⟨l1, l2, ⟨c, hc, rfl⟩, h2, rfl⟩
        simp only [List.singleton_append, ciWordB, Bool.and_eq_true]
        exact ⟨hc, (ih (l := l2)).mp h2⟩
      · intro h
        cases l with
        | nil => simp [ciWordB] at h
        | cons c cs =>
            simp only [ciWordB, Bool.and_eq_true] at h
            exact ⟨[c], cs, ⟨c, h.1, rfl⟩, (ih (l := cs)).mpr h.2, rfl⟩

/-! ## Character classes of the source regexes -/

/-- Class `[0-9]` (also `\d` in a JavaScript regex). -/
def isDigitC (c : Char) : Bool := decide ('0' ≤ c) && decide (c ≤ '9')

/-- Class `[./0-9a-zA-Z]` — the bcrypt base64 alphabet of `is-bcrypt.util.ts`. -/
def bcryptB64C (c : Char) : Bool :=
  c == '.' || c == '/' || (decide ('0' ≤ c) && decide (c ≤ '9')) ||
    (decide ('a' ≤ c) && decide (c ≤ 'z')) || (decide ('A' ≤ c) && decide (c ≤ 'Z'))

/-- Class `[A-Za-z0-9+/]` — the standard base64 alphabet of the argon2 classifier. -/
def stdB64C (c : Char) : Bool :=
  (decide ('A' ≤ c) && decide (c ≤ 'Z')) || (decide ('a' ≤ c) && decide (c ≤ 'z')) ||
    (decide ('0' ≤ c) && decide (c ≤ '9')) || c == '+' || c == '/'

/-- Class `[a-fA-F0-9]` — a hexadecimal digit, as in `is-md5.util.ts` / `is-sha.util.ts`. -/
def hexC (c : Char) : Bool :=
  (decide ('a' ≤ c) && decide (c ≤ 'f')) || (decide ('A' ≤ c) && decide (c ≤ 'F')) ||
    (decide ('0' ≤ c) && decide (c ≤ '9'))

/-! ## The five classifier regexes, transliterated from the source -/

/-- Group `(?:0[4-9]|[12][0-9]|3[01])` — the bcrypt cost-factor alternation. -/
def bcryptCostRE : RE :=
  .alt (.cat (chr '0') (.cls (fun c => decide ('4' ≤ c) && decide (c ≤ '9'))))
    (.alt (.cat (.cls (fun c => c == '1' || c == '2')) (.cls isDigitC))
      (.cat (chr '3') (.cls (fun c => c == '0' || c == '1'))))

/-- Pattern `/^[$]2[abxy]?[$](?:0[4-9]|[12][0-9]|3[01])[$][./0-9a-zA-Z]{53}$/` from
`is-bcrypt.util.ts`. -/
def bcryptHashPattern : RE :=
  .cat (chr '$')
    (.cat (chr '2')
      (.cat (ropt (.cls (fun c => c == 'a' || c == 'b' || c == 'x' || c == 'y')))
        (.cat (chr '$')
          (.cat bcryptCostRE
            (.cat (chr '$') (rePow (.cls bcryptB64C) 53))))))

/-- Pattern `/^[a-fA-F0-9]{32}$/` from `is-md5.util.ts`. -/
def md5HashPattern : RE := rePow (.cls hexC) 32

/-- Pattern `/^[A-Fa-f0-9]{40}$/` from `is-sha.util.ts`. -/
def sha1HashPattern : RE := rePow (.cls hexC) 40

/-- Pattern `/^[A-Fa-f0-9]{64}$/` from `is-sha.util.ts`. -/
def sha256HashPattern : RE := rePow (.cls hexC) 64

/-- The header `\$argon2id\$v=` under the `i` flag, as a character list. -/
def argonHdrW : List Char := ['$', 'a', 'r', 'g', 'o', 'n', '2', 'i', 'd', '$', 'v', '=']

/-- Pattern `\$m=` under the `i` flag. -/
def argonMW : List Char := ['$', 'm', '=']

/-- Pattern `,t=` under the `i` flag. -/
def argonTW : List Char := [',', 't', '=']

/-- Pattern `,p=` under the `i` flag. -/
def argonPW : List Char := [',', 'p', '=']

/-- Pattern `,keyid=` under the `i` flag. -/
def argonKeyidW : List Char := [',', 'k', 'e', 'y', 'i', 'd', '=']

/-- Pattern `,data=` under the `i` flag. -/
def argonDataW : List Char := [',', 'd', 'a', 't', 'a', '=']

/-- Group `(?:16|19)` — the argon2 version alternation. -/
def argonVerRE : RE := .alt (wordRE ['1', '6']) (wordRE ['1', '9'])

/-- Group `(?:,data=[A-Za-z0-9+/]{0,43})?` — the optional data group. -/
def argonDataRE : RE :=
  ropt (.cat (ciWordRE argonDataW) (reRange (.cls stdB64C) 0 43))

/-- Group `(?:,keyid=[A-Za-z0-9+/]{0,11}(?:,data=[A-Za-z0-9+/]{0,43})?)?` — the
optional keyid group (with its nested optional data group). -/
def argonKeyidRE : RE :=
  ropt (.cat (ciWordRE argonKeyidW) (.cat (reRange (.cls stdB64C) 0 11) argonDataRE))

/-- The argon2 classifier regex
`/^\$argon2id\$v=(?:16|19)\$m=\d{1,10},t=\d{1,10},p=\d{1,3}(?:,keyid=[A-Za-z0-9+/]{0,11}(?:,data=[A-Za-z0-9+/]{0,43})?)?\$[A-Za-z0-9+/]{11,64}\$[A-Za-z0-9+/]{16,86}$/i`,
with the `i` flag rendered on each literal letter. -/
def argon2HashPattern : RE :=
  .cat (ciWordRE argonHdrW)
    (.cat argonVerRE
      (.cat (ciWordRE argonMW)
        (.cat (reRange (.cls isDigitC) 1 10)
          (.cat (ciWordRE argonTW)
            (.cat (reRange (.cls isDigitC) 1 10)
              (.cat (ciWordRE argonPW)
                (.cat (reRange (.cls isDigitC) 1 3)
                  (.cat argonKeyidRE
                    (.cat (chr '$')
                      (.cat (reRange (.cls stdB64C) 11 64)
                        (.cat (chr '$')
                          (reRange (.cls stdB64C) 16 86))))))))))))

/-! ## The classifiers (`is-bcrypt.util.ts`, `is-md5.util.ts`, `is-sha.util.ts`,
and the argon2 classifier), on `String` input -/

/-- Classifier `isBcrypt` — `bcryptHashPattern.test(data.toString())` for a string input. -/
def isBcrypt (s : String) : Bool := rmatch bcryptHashPattern s.data

/-- Classifier `isMD5` — `md5HashPattern.test(data.toString())` for a string input. -/
def isMD5 (s : String) : Bool := rmatch md5HashPattern s.data

/-- Classifier `isSHA1` — `sha1HashPattern.test(data.toString())` for a string input. -/
def isSHA1 (s : String) : Bool := rmatch sha1HashPattern s.data

/-- Classifier `isSHA256` — `sha256HashPattern.test(data.toString())` for a string input. -/
def isSHA256 (s : String) : Bool := rmatch sha256HashPattern s.data

/-- Classifier `isArgon2` — `argon2HashPattern.test(data.toString())` for a string input. -/
def isArgon2 (s : String) : Bool := rmatch argon2HashPattern s.data

/-! ## Spec-side structural characterizations of the five formats

These definitions follow the wording of the specification's format table (§6):
MD5 is exactly 32 hex characters, SHA-1 exactly 40, SHA-256 exactly 64, bcrypt
is `$2`, an optional version letter among `a b x y`, `$`, a two-digit cost in
04–31, `$`, and 53 characters of the bcrypt base64 alphabet; argon2 is the PHC
string form, case-insensitively. -/

/-- A hexadecimal character, `[a-fA-F0-9]`. -/
def HexChar (c : Char) : Prop :=
  ('a' ≤ c ∧ c ≤ 'f') ∨ ('A' ≤ c ∧ c ≤ 'F') ∨ ('0' ≤ c ∧ c ≤ '9')

/-- Exactly 32 hexadecimal characters. -/
def MD5Spec (s : String) : Prop := s.data.length = 32 ∧ ∀ c ∈ s.data, HexChar c

/-- Exactly 40 hexadecimal characters. -/
def SHA1Spec (s : String) : Prop := s.data.length = 40 ∧ ∀ c ∈ s.data, HexChar c

/-- Exactly 64 hexadecimal characters. -/
def SHA256Spec (s : String) : Prop := s.data.length = 64 ∧ ∀ c ∈ s.data, HexChar c

theorem hexC_iff {c : Char} : hexC c = true ↔ HexChar c := by
  simp only [hexC, HexChar, Bool.or_eq_true, Bool.and_eq_true, decide_eq_true_eq]
  tauto

theorem isMD5_iff_spec (s : String) : isMD5 s = true ↔ MD5Spec s := by
  rw [isMD5, rmatch_iff, md5HashPattern, matches_rePow_cls, MD5Spec]
  simp only [hexC_iff]

theorem isSHA1_iff_spec (s : String) : isSHA1 s = true ↔ SHA1Spec s := by
  rw [isSHA1, rmatch_iff, sha1HashPattern, matches_rePow_cls, SHA1Spec]
  simp only [hexC_iff]

theorem isSHA256_iff_spec (s : String) : isSHA256 s = true ↔ SHA256Spec s := by
  rw [isSHA256, rmatch_iff, sha256HashPattern, matches_rePow_cls, SHA256Spec]
  simp only [hexC_iff]

/-- The optional bcrypt version suffix: empty or one of `a`, `b`, `x`, `y`. -/
def BcryptVersionSuffix (v : List Char) : Prop :=
  v = [] ∨ v = ['a'] ∨ v = ['b'] ∨ v = ['x'] ∨ v = ['y']

/-- The bcrypt cost field `0[4-9]|[12][0-9]|3[01]`: two decimal digits whose
value lies in 04–31. -/
def BcryptCost (c1 c2 : Char) : Prop :=
  (c1 = '0' ∧ '4' ≤ c2 ∧ c2 ≤ '9') ∨
  ((c1 = '1' ∨ c1 = '2') ∧ '0' ≤ c2 ∧ c2 ≤ '9') ∨
  (c1 = '3' ∧ (c2 = '0' ∨ c2 = '1'))

/-- A character of the bcrypt base64 alphabet `[./0-9a-zA-Z]`. -/
def BcryptB64Char (c : Char) : Prop :=
  c = '.' ∨ c = '/' ∨ ('0' ≤ c ∧ c ≤ '9') ∨ ('a' ≤ c ∧ c ≤ 'z') ∨ ('A' ≤ c ∧ c ≤ 'Z')

/-- The bcrypt format of the specification's table:
`$2`, optional version letter, `$`, two-digit cost in 04–31, `$`,
53 characters of the bcrypt base64 alphabet. -/
def BcryptSpec (s : String) : Prop :=
  ∃ ver c1 c2 body, BcryptVersionSuffix ver ∧ BcryptCost c1 c2 ∧
    body.length = 53 ∧ (∀ c ∈ body, BcryptB64Char c) ∧
    s.data = '$' :: '2' :: (ver ++ ('$' :: c1 :: c2 :: ('$' :: body)))

theorem bcryptB64C_iff {c : Char} : bcryptB64C c = true ↔ BcryptB64Char c := by
  simp only [bcryptB64C, BcryptB64Char, Bool.or_eq_true, Bool.and_eq_true,
    decide_eq_true_eq, beq_iff_eq]
  tauto

theorem matches_bcryptCost {l : List Char} :
    Matches bcryptCostRE l ↔ ∃ c1 c2, BcryptCost c1 c2 ∧ l = [c1, c2] := by
  simp only [bcryptCostRE, matches_alt, matches_cat, matches_chr, matches_cls, isDigitC,
    Bool.or_eq_true, Bool.and_eq_true, decide_eq_true_eq, beq_iff_eq]
  constructor
  · rintro (⟨l1, l2, rfl, ⟨c, hc, rfl⟩, rfl⟩ |
            ⟨l1, l2, ⟨c1, hc1, rfl⟩, ⟨c2, hc2, rfl⟩, rfl⟩ |
            ⟨l1, l2, rfl, ⟨c, hc, rfl⟩, rfl⟩)
    · exact ⟨'0', c, Or.inl ⟨rfl, hc⟩, rfl⟩
    · exact ⟨c1, c2, Or.inr (Or.inl ⟨hc1, hc2⟩), rfl⟩
    · exact ⟨'3', c, Or.inr (Or.inr ⟨rfl, hc⟩), rfl⟩
  · rintro ⟨c1, c2, (⟨rfl, hc⟩ | ⟨hc1, hc2⟩ | ⟨rfl, hc⟩), rfl⟩
    · exact Or.inl ⟨['0'], [c2], rfl, ⟨c2, hc, rfl⟩, rfl⟩
    · exact Or.inr (Or.inl ⟨[c1], [c2], ⟨c1, hc1, rfl⟩, ⟨c2, hc2, rfl⟩, rfl⟩)
    · exact Or.inr (Or.inr ⟨['3'], [c2], rfl, ⟨c2, hc, rfl⟩, rfl⟩)

theorem isBcrypt_iff_spec (s : String) : isBcrypt s = true ↔ BcryptSpec s := by
  rw [isBcrypt, rmatch_iff, BcryptSpec]
  generalize s.data = l
  simp only [bcryptHashPattern, matches_cat, matches_chr, matches_ropt, matches_cls,
    matches_bcryptCost, matches_rePow_cls, bcryptB64C_iff, Bool.or_eq_true, beq_iff_eq]
  constructor
  · rintro ⟨l1, r1, rfl, ⟨l2, r2, rfl, ⟨lv, r3, hv, ⟨l4, r4, rfl,
      ⟨lc, r5, ⟨c1, c2, hcost, rfl⟩, ⟨l6, body, rfl, ⟨hlen, hall⟩, rfl⟩, rfl⟩, rfl⟩, h3⟩, rfl⟩, rfl⟩
    have hver : BcryptVersionSuffix lv := by
      rcases hv with rfl | ⟨c, hc, rfl⟩
      · exact Or.inl rfl
      · rcases hc with ((rfl | rfl) | rfl) | rfl
        · exact Or.inr (Or.inl rfl)
        · exact Or.inr (Or.inr (Or.inl rfl))
        · exact Or.inr (Or.inr (Or.inr (Or.inl rfl)))
        · exact Or.inr (Or.inr (Or.inr (Or.inr rfl)))
    refine ⟨lv, c1, c2, body, hver, hcost, hlen, hall, ?_⟩
    rw [← h3]
    simp
  · rintro ⟨ver, c1, c2, body, hver, hcost, hlen, hall, rfl⟩
    refine ⟨['$'], _, rfl, ⟨['2'], _, rfl, ⟨ver, _, ?_, ⟨['$'], _, rfl,
      ⟨[c1, c2], _, ⟨c1, c2, hcost, rfl⟩, ⟨['$'], body, rfl, ⟨hlen, hall⟩, rfl⟩, rfl⟩, rfl⟩, rfl⟩, rfl⟩, rfl⟩
    rcases hver with rfl | rfl | rfl | rfl | rfl
    · exact Or.inl rfl
    · exact Or.inr ⟨'a', Or.inl (Or.inl (Or.inl rfl)), rfl⟩
    · exact Or.inr ⟨'b', Or.inl (Or.inl (Or.inr rfl)), rfl⟩
    · exact Or.inr ⟨'x', Or.inl (Or.inr rfl), rfl⟩
    · exact Or.inr ⟨'y', Or.inr rfl, rfl⟩

/-- A character of the standard base64 alphabet `[A-Za-z0-9+/]`. -/
def StdB64Char (c : Char) : Prop :=
  ('A' ≤ c ∧ c ≤ 'Z') ∨ ('a' ≤ c ∧ c ≤ 'z') ∨ ('0' ≤ c ∧ c ≤ '9') ∨ c = '+' ∨ c = '/'

/-- Between `lo` and `hi` standard-base64 characters. -/
def B64Range (lo hi : Nat) (l : List Char) : Prop :=
  lo ≤ l.length ∧ l.length ≤ hi ∧ ∀ c ∈ l, StdB64Char c

/-- Between `lo` and `hi` decimal digits. -/
def DigitsRange (lo hi : Nat) (l : List Char) : Prop :=
  lo ≤ l.length ∧ l.length ≤ hi ∧ ∀ c ∈ l, '0' ≤ c ∧ c ≤ '9'

/-- The optional `,data=` group of the PHC string. -/
def ArgonDataSpec (l : List Char) : Prop :=
  l = [] ∨ ∃ hdr d, ciWordB argonDataW hdr = true ∧ B64Range 0 43 d ∧ hdr ++ d = l

/-- The optional `,keyid=` group of the PHC string, with its nested
optional `,data=` group. -/
def ArgonKeyidSpec (l : List Char) : Prop :=
  l = [] ∨ ∃ hdr kid rest, ciWordB argonKeyidW hdr = true ∧ B64Range 0 11 kid ∧
    ArgonDataSpec rest ∧ hdr ++ (kid ++ rest) = l

/-- The argon2 PHC-string form of the specification's table, matched
case-insensitively: `$argon2id$v=`, version `16` or `19`, `$m=`, 1–10 digits,
`,t=`, 1–10 digits, `,p=`, 1–3 digits, an optional keyid group (with optional
data group), `$`, an 11–64 character base64 salt, `$`, a 16–86 character
base64 tag. -/
def Argon2Spec (s : String) : Prop :=
  ∃ hdr ver mh md th td ph pd kid salt tag,
    ciWordB argonHdrW hdr = true ∧ (ver = ['1', '6'] ∨ ver = ['1', '9']) ∧
    ciWordB argonMW mh = true ∧ DigitsRange 1 10 md ∧
    ciWordB argonTW th = true ∧ DigitsRange 1 10 td ∧
    ciWordB argonPW ph = true ∧ DigitsRange 1 3 pd ∧
    ArgonKeyidSpec kid ∧ B64Range 11 64 salt ∧ B64Range 16 86 tag ∧
    s.data = hdr ++ (ver ++ (mh ++ (md ++ (th ++ (td ++ (ph ++ (pd ++
      (kid ++ ('$' :: (salt ++ ('$' :: tag)))))))))))

theorem stdB64C_iff {c : Char} : stdB64C c = true ↔ StdB64Char c := by
  simp only [stdB64C, StdB64Char, Bool.or_eq_true, Bool.and_eq_true,
    decide_eq_true_eq, beq_iff_eq]
  tauto

theorem isDigitC_iff {c : Char} : isDigitC c = true ↔ '0' ≤ c ∧ c ≤ '9' := by
  simp [isDigitC]

theorem matches_argonVer {l : List Char} :
    Matches argonVerRE l ↔ l = ['1', '6'] ∨ l = ['1', '9'] := by
  simp [argonVerRE, matches_alt, matches_wordRE]

theorem matches_argonDataRE {l : List Char} :
    Matches argonDataRE l ↔ ArgonDataSpec l := by
  simp only [argonDataRE, ArgonDataSpec, matches_ropt, matches_cat, matches_ciWordRE,
    matches_reRange_cls, stdB64C_iff, B64Range]

theorem matches_argonKeyidRE {l : List Char} :
    Matches argonKeyidRE l ↔ ArgonKeyidSpec l := by
  simp only [argonKeyidRE, ArgonKeyidSpec, matches_ropt, matches_cat, matches_ciWordRE,
    matches_reRange_cls, stdB64C_iff, B64Range, matches_argonDataRE]
  constructor
  · rintro (rfl | ⟨hdr, rest0, hhdr, ⟨kid, rest, hkid, hdata, rfl⟩, rfl⟩)
    · exact Or.inl rfl
    · exact Or.inr ⟨hdr, kid, rest, hhdr, hkid, hdata, rfl⟩
  · rintro (rfl | ⟨hdr, kid, rest, hhdr, hkid, hdata, rfl⟩)
    · exact Or.inl rfl
    · exact Or.inr ⟨hdr, kid ++ rest, hhdr, ⟨kid, rest, hkid, hdata, rfl⟩, rfl⟩

theorem isArgon2_iff_spec (s : String) : isArgon2 s = true ↔ Argon2Spec s := by
  rw [isArgon2, rmatch_iff, Argon2Spec]
  generalize s.data = l
  simp only [argon2HashPattern, matches_cat, matches_ciWordRE, matches_argonVer,
    matches_reRange_cls, isDigitC_iff, stdB64C_iff, matches_argonKeyidRE,
    matches_chr, DigitsRange, B64Range]
  constructor
  · rintro ⟨hdr, r1, hhdr, ⟨ver, r2, hver, ⟨mh, r3, hmh, ⟨md, r4, hmd, ⟨th, r5, hth,
      ⟨td, r6, htd, ⟨ph, r7, hph, ⟨pd, r8, hpd, ⟨kid, r9, hkid, ⟨d1, r10, rfl,
      ⟨salt, r11, hsalt, ⟨d2, tag, rfl, htag, rfl⟩, rfl⟩, rfl⟩, rfl⟩, rfl⟩, rfl⟩,
      rfl⟩, rfl⟩, rfl⟩, rfl⟩, rfl⟩, happ⟩
    exact ⟨hdr, ver, mh, md, th, td, ph, pd, kid, salt, tag, hhdr, hver, hmh, hmd,
      hth, htd, hph, hpd, hkid, hsalt, htag, happ.symm⟩
  · rintro ⟨hdr, ver, mh, md, th, td, ph, pd, kid, salt, tag, hhdr, hver, hmh, hmd,
      hth, htd, hph, hpd, hkid, hsalt, htag, rfl⟩
    exact ⟨hdr, _, hhdr, ⟨ver, _, hver, ⟨mh, _, hmh, ⟨md, _, hmd, ⟨th, _, hth,
      ⟨td, _, htd, ⟨ph, _, hph, ⟨pd, _, hpd, ⟨kid, _, hkid, ⟨['$'], _, rfl,
      ⟨salt, _, hsalt, ⟨['$'], tag, rfl, htag, rfl⟩, rfl⟩, rfl⟩, rfl⟩, rfl⟩, rfl⟩,
      rfl⟩, rfl⟩, rfl⟩, rfl⟩, rfl⟩, rfl⟩

/-! ## Claim C1 and claim C9 -/

/-- C1: for every string `s`, `isBcrypt s` is true iff `s` matches the bcrypt
pattern `^\$2[abxy]?\$(0[4-9]|[12][0-9]|3[01])\$[./0-9A-Za-z]{53}$`, and the
same law holds for the other four classifiers against their spec patterns
(MD5: exactly 32 hex characters; SHA-1: 40; SHA-256: 64; argon2: the PHC
string pattern, case-insensitive). -/
theorem classifiers_match_spec_patterns (s : String) :
    (isBcrypt s = true ↔ BcryptSpec s) ∧ (isArgon2 s = true ↔ Argon2Spec s) ∧
    (isMD5 s = true ↔ MD5Spec s) ∧ (isSHA1 s = true ↔ SHA1Spec s) ∧
    (isSHA256 s = true ↔ SHA256Spec s) :=
  ⟨isBcrypt_iff_spec s, isArgon2_iff_spec s, isMD5_iff_spec s,
    isSHA1_iff_spec s, isSHA256_iff_spec s⟩

theorem bcrypt_starts_dollar {s : String} (h : BcryptSpec s) :
    ∃ t, s.data = '$' :: t := by
  obtain ⟨ver, c1, c2, body, _, _, _, _, heq⟩ := h
  exact ⟨_, heq⟩

theorem argon2_starts_dollar {s : String} (h : Argon2Spec s) :
    ∃ t, s.data = '$' :: t := by
  obtain ⟨hdr, ver, mh, md, th, td, ph, pd, kid, salt, tag, hhdr, _, _, _, _, _,
    _, _, _, _, _, heq⟩ := h
  cases hdr with
  | nil => simp [argonHdrW, ciWordB] at hhdr
  | cons c cs =>
      simp only [argonHdrW, ciWordB, Bool.and_eq_true] at hhdr
      have hc : c = '$' := by
        have := hhdr.1
        simp only [ciCharB, Bool.or_eq_true, beq_iff_eq] at this
        rcases this with rfl | h'
        · rfl
        · rw [h']; decide
      subst hc
      exact ⟨_, heq⟩

theorem hexAll_not_dollar_head {s : String} (hall : ∀ c ∈ s.data, HexChar c)
    {t : List Char} (h : s.data = '$' :: t) : False := by
  have hd : HexChar '$' := hall '$' (by rw [h]; exact List.mem_cons_self _ _)
  simp only [HexChar] at hd
  revert hd
  decide

/-- C9: the classifiers are pairwise exclusive: no string satisfies more than
one of `isMD5`, `isSHA1`, `isSHA256` (their anchored patterns require exactly
32, 40 and 64 characters), and no string accepted by `isBcrypt` or `isArgon2`
(both of which require a leading `$`) is accepted by any hex classifier. -/
theorem classifiers_pairwise_exclusive (s : String) :
    (isMD5 s = true → isSHA1 s = false ∧ isSHA256 s = false) ∧
    (isSHA1 s = true → isMD5 s = false ∧ isSHA256 s = false) ∧
    (isSHA256 s = true → isMD5 s = false ∧ isSHA1 s = false) ∧
    (isBcrypt s = true ∨ isArgon2 s = true →
      isMD5 s = false ∧ isSHA1 s = false ∧ isSHA256 s = false) := by
  have hm := isMD5_iff_spec s
  have h1 := isSHA1_iff_spec s
  have h2 := isSHA256_iff_spec s
  refine ⟨?_, ?_, ?_, ?_⟩
  · intro h
    obtain ⟨hlen, _⟩ := hm.mp h
    constructor
    · rw [← Bool.not_eq_true]; intro h'
      obtain ⟨hlen', _⟩ := h1.mp h'; omega
    · rw [← Bool.not_eq_true]; intro h'
      obtain ⟨hlen', _⟩ := h2.mp h'; omega
  · intro h
    obtain ⟨hlen, _⟩ := h1.mp h
    constructor
    · rw [← Bool.not_eq_true]; intro h'
      obtain ⟨hlen', _⟩ := hm.mp h'; omega
    · rw [← Bool.not_eq_true]; intro h'
      obtain ⟨hlen', _⟩ := h2.mp h'; omega
  · intro h
    obtain ⟨hlen, _⟩ := h2.mp h
    constructor
    · rw [← Bool.not_eq_true]; intro h'
      obtain ⟨hlen', _⟩ := hm.mp h'; omega
    · rw [← Bool.not_eq_true]; intro h'
      obtain ⟨hlen', _⟩ := h1.mp h'; omega
  · intro h
    have hdol : ∃ t, s.data = '$' :: t := by
      rcases h with hb | ha
      · exact bcrypt_starts_dollar ((isBcrypt_iff_spec s).mp hb)
      · exact argon2_starts_dollar ((isArgon2_iff_spec s).mp ha)
    obtain ⟨t, ht⟩ := hdol
    refine ⟨?_, ?_, ?_⟩
    · rw [← Bool.not_eq_true]; intro h'
      exact hexAll_not_dollar_head (hm.mp h').2 ht
    · rw [← Bool.not_eq_true]; intro h'
      exact hexAll_not_dollar_head (h1.mp h').2 ht
    · rw [← Bool.not_eq_true]; intro h'
      exact hexAll_not_dollar_head (h2.mp h').2 ht

/-- Witness for C9: concrete instantiations discharging the hypotheses — a
32-hex-character string is `isMD5` but neither `isSHA1` nor `isSHA256`, and a
well-formed bcrypt digest is accepted by none of the hex classifiers. -/
theorem classifiers_pairwise_exclusive_witness :
    (isSHA1 ("5d41402abc4b2a76b9719d911017c592") = false ∧
      isSHA256 ("5d41402abc4b2a76b9719d911017c592") = false) ∧
    (isMD5 ("$2b$10$AAAAAAAAAAAAAAAAAAAAAAAAAAAAAAAAAAAAAAAAAAAAAAAAAAAAA") = false ∧
      isSHA1 ("$2b$10$AAAAAAAAAAAAAAAAAAAAAAAAAAAAAAAAAAAAAAAAAAAAAAAAAAAAA") = false ∧
      isSHA256 ("$2b$10$AAAAAAAAAAAAAAAAAAAAAAAAAAAAAAAAAAAAAAAAAAAAAAAAAAAAA") = false) :=
  ⟨(classifiers_pairwise_exclusive ("5d41402abc4b2a76b9719d911017c592")).1 (by decide),
    (classifiers_pairwise_exclusive
      ("$2b$10$AAAAAAAAAAAAAAAAAAAAAAAAAAAAAAAAAAAAAAAAAAAAAAAAAAAAA")).2.2.2
      (Or.inl (by decide))⟩

/-! ## JavaScript dynamics: runtime values, `toString()`, thrown errors

The classifier functions receive `data: string | Buffer` and call
`data.toString()`.  At runtime nothing prevents other values from arriving
(the spec explicitly discusses `null`), so the embedding models the relevant
JavaScript value universe and the exact behaviour of `.toString()` on it:
strings and Buffers (a Buffer is modelled by the string its utf-8 `toString()`
yields), numbers, booleans and plain objects all coerce, while
`null.toString()` and `undefined.toString()` throw a `TypeError`. -/

/-- Errors a modelled call can throw.  `configurationError` exists to state
the spec's error taxonomy; `typeError` is JavaScript's `TypeError`. -/
inductive JsError where
  | typeError : JsError
  | configurationError : JsError
deriving DecidableEq

/-- The JavaScript values relevant to the embedded functions. -/
inductive JsValue where
  | str : String → JsValue
  | buf : String → JsValue
  | num : Int → JsValue
  | boolean : Bool → JsValue
  | obj : JsValue
  | null : JsValue
  | undef : JsValue
deriving DecidableEq

/-- Method `v.toString()`: strings return themselves, Buffers their utf-8 decoding,
numbers and booleans their text forms, plain objects `[object Object]`;
`null` and `undefined` have no properties, so the call throws a `TypeError`. -/
def jsToString : JsValue → Except JsError String
  | .str s => .ok s
  | .buf s => .ok s
  | .num n => .ok (toString n)
  | .boolean b => .ok (cond b ("true") ("false"))
  | .obj => .ok ("[object Object]")
  | .null => .error .typeError
  | .undef => .error .typeError

/-- Classifier `isBcrypt` as called at runtime: `bcryptHashPattern.test(data.toString())`. -/
def isBcryptJs (v : JsValue) : Except JsError Bool := (jsToString v).map isBcrypt

/-- Classifier `isArgon2` as called at runtime. -/
def isArgon2Js (v : JsValue) : Except JsError Bool := (jsToString v).map isArgon2

/-- Classifier `isMD5` as called at runtime. -/
def isMD5Js (v : JsValue) : Except JsError Bool := (jsToString v).map isMD5

/-- Classifier `isSHA1` as called at runtime. -/
def isSHA1Js (v : JsValue) : Except JsError Bool := (jsToString v).map isSHA1

/-- Classifier `isSHA256` as called at runtime. -/
def isSHA256Js (v : JsValue) : Except JsError Bool := (jsToString v).map isSHA256

/-- Is `v` a value on which `.toString()` succeeds (everything except
`null` and `undefined`)? -/
def JsValue.textCoercible : JsValue → Bool
  | .null => false
  | .undef => false
  | _ => true

/-- C4 counterexample: the claim says a non-text-coercible input such as
`null` yields `false`; in fact `isBcrypt(null)` evaluates `null.toString()`,
which throws a `TypeError` — the call does not return `false` (nor any
boolean). -/
theorem isBcrypt_null_throws :
    isBcryptJs JsValue.null = Except.error JsError.typeError ∧
      isBcryptJs JsValue.null ≠ Except.ok false := by
  constructor
  · rfl
  · intro h
    simp [isBcryptJs, jsToString, Except.map] at h

/-- C4 amended: every classifier is total on every value whose `.toString()`
succeeds — strings, Buffers, numbers, booleans and objects all yield a
boolean and never throw — while `null` and `undefined` make every classifier
throw a `TypeError` instead of returning `false`. -/
theorem classifiers_total_on_coercible (v : JsValue) :
    (v.textCoercible = true →
      ∃ s, jsToString v = Except.ok s ∧
        isBcryptJs v = Except.ok (isBcrypt s) ∧ isArgon2Js v = Except.ok (isArgon2 s) ∧
        isMD5Js v = Except.ok (isMD5 s) ∧ isSHA1Js v = Except.ok (isSHA1 s) ∧
        isSHA256Js v = Except.ok (isSHA256 s)) ∧
    (v.textCoercible = false →
      isBcryptJs v = Except.error JsError.typeError ∧
      isArgon2Js v = Except.error JsError.typeError ∧
      isMD5Js v = Except.error JsError.typeError ∧
      isSHA1Js v = Except.error JsError.typeError ∧
      isSHA256Js v = Except.error JsError.typeError) := by
  constructor
  · intro h
    cases v <;> simp_all [JsValue.textCoercible, jsToString, isBcryptJs, isArgon2Js,
      isMD5Js, isSHA1Js, isSHA256Js, Except.map]
  · intro h
    cases v <;> simp_all [JsValue.textCoercible, jsToString, isBcryptJs, isArgon2Js,
      isMD5Js, isSHA1Js, isSHA256Js, Except.map]

/-- Witness for the amended C4 theorem at the concrete values `str "abc"`
(coercible: all classifiers return a boolean) and `null` (not coercible:
all classifiers throw). -/
theorem classifiers_total_on_coercible_witness :
    (∃ s, jsToString (JsValue.str ("abc")) = Except.ok s ∧
      isBcryptJs (JsValue.str ("abc")) = Except.ok (isBcrypt s) ∧
      isArgon2Js (JsValue.str ("abc")) = Except.ok (isArgon2 s) ∧
      isMD5Js (JsValue.str ("abc")) = Except.ok (isMD5 s) ∧
      isSHA1Js (JsValue.str ("abc")) = Except.ok (isSHA1 s) ∧
      isSHA256Js (JsValue.str ("abc")) = Except.ok (isSHA256 s)) ∧
    (isBcryptJs JsValue.null = Except.error JsError.typeError ∧
      isArgon2Js JsValue.null = Except.error JsError.typeError ∧
      isMD5Js JsValue.null = Except.error JsError.typeError ∧
      isSHA1Js JsValue.null = Except.error JsError.typeError ∧
      isSHA256Js JsValue.null = Except.error JsError.typeError) :=
  ⟨(classifiers_total_on_coercible (JsValue.str ("abc"))).1 rfl,
    (classifiers_total_on_coercible JsValue.null).2 rfl⟩

/-! ## `IsHashed` validator (`is-hashed-validator.decorator.ts`)

`validate(value)` first rejects non-strings, then dispatches: with no
configured `type` it checks `isBcrypt(value) || isArgon2(value)`, otherwise it
returns `mapValidationByHashType(type, value)`.  The dispatcher indexes an
object literal `{bcrypt: …, argon2: …, md5: …, sha1: …, sha256: …, default:
false}` with the type name.  JavaScript property access walks the prototype
chain: one of the literal's six own keys yields its boolean value; a key that
names a member of `Object.prototype` (`toString`, `valueOf`, `hasOwnProperty`,
`constructor`, the annex-B accessors, …) yields that inherited member — a
truthy function or object, neither a boolean nor `undefined`; only a key
found nowhere on the chain yields `undefined`. -/

/-- The property names an object literal inherits from `Object.prototype`
(ES2023 §20.2.3 plus the annex-B legacy accessors, all present in Node). -/
def objectPrototypeMembers : List String :=
  [("constructor"), ("hasOwnProperty"), ("isPrototypeOf"), ("propertyIsEnumerable"),
    ("toLocaleString"), ("toString"), ("valueOf"), ("__defineGetter__"),
    ("__defineSetter__"), ("__lookupGetter__"), ("__lookupSetter__"), ("__proto__")]

/-- The outcome of indexing the dispatcher's object literal: an own property
holding a boolean, a member inherited from `Object.prototype` (a truthy
function or object — never a boolean, never `undefined`), or `undefined`. -/
inductive JsLookup where
  | boolean : Bool → JsLookup
  | protoMember : JsLookup
  | undefinedVal : JsLookup
deriving DecidableEq

/-- Method `mapValidationByHashType(type, value)`: the object literal's six own
keys shadow the prototype; any other key is looked up on `Object.prototype`
before the access evaluates to `undefined`. -/
def mapValidationByHashType (type : String) (value : String) : JsLookup :=
  if type = "bcrypt" then .boolean (isBcrypt value)
  else if type = "argon2" then .boolean (isArgon2 value)
  else if type = "md5" then .boolean (isMD5 value)
  else if type = "sha1" then .boolean (isSHA1 value)
  else if type = "sha256" then .boolean (isSHA256 value)
  else if type = "default" then .boolean false
  else if type ∈ objectPrototypeMembers then .protoMember
  else .undefinedVal

/-- Method `IsHashed`'s `validate`.  `type?` is the decorator's optional `type`
option; the result is whatever the dispatch produces (`validate`'s own
branches always produce booleans). -/
def isHashedValidate (type? : Option String) (value : JsValue) : JsLookup :=
  match value with
  | .str v =>
      match type? with
      | none => .boolean (isBcrypt v || isArgon2 v)
      | some type => mapValidationByHashType type v
  | _ => .boolean false

/-- C3 counterexample: the claim says the dispatcher returns `false` for every
unrecognized type name; in fact `{…}["unknown-type"]` is `undefined`
(no such key on the literal or its prototype), not `false`. -/
theorem isHashed_unknown_type_is_undefined :
    isHashedValidate (some ("unknown-type")) (JsValue.str ("abc")) = JsLookup.undefinedVal ∧
      isHashedValidate (some ("unknown-type")) (JsValue.str ("abc")) ≠
        JsLookup.boolean false := by
  constructor
  · rfl
  · intro h
    simp [isHashedValidate, mapValidationByHashType, objectPrototypeMembers] at h

/-- C3 amended: for each of the five recognized type names the dispatcher
returns exactly the corresponding predicate's result; with no type configured
the check is `isBcrypt(x) || isArgon2(x)`; an unrecognized type name is never
an error, but does not return the boolean `false` either: the literal name
`default` hits the object literal's `default: false` entry, a name of an
`Object.prototype` member (such as `toString` or `valueOf`) returns that
inherited truthy non-boolean member, and every other name yields
`undefined`. -/
theorem isHashed_dispatch (x : String) (t : String) :
    isHashedValidate (some ("bcrypt")) (JsValue.str x) = JsLookup.boolean (isBcrypt x) ∧
    isHashedValidate (some ("argon2")) (JsValue.str x) = JsLookup.boolean (isArgon2 x) ∧
    isHashedValidate (some ("md5")) (JsValue.str x) = JsLookup.boolean (isMD5 x) ∧
    isHashedValidate (some ("sha1")) (JsValue.str x) = JsLookup.boolean (isSHA1 x) ∧
    isHashedValidate (some ("sha256")) (JsValue.str x) = JsLookup.boolean (isSHA256 x) ∧
    isHashedValidate none (JsValue.str x) = JsLookup.boolean (isBcrypt x || isArgon2 x) ∧
    isHashedValidate (some ("default")) (JsValue.str x) = JsLookup.boolean false ∧
    (t ∈ objectPrototypeMembers →
      isHashedValidate (some t) (JsValue.str x) = JsLookup.protoMember) ∧
    (t ∉ ["bcrypt", "argon2", "md5", "sha1", "sha256", "default"] →
      t ∉ objectPrototypeMembers →
      isHashedValidate (some t) (JsValue.str x) = JsLookup.undefinedVal) := by
  refine ⟨rfl, rfl, rfl, rfl, rfl, rfl, rfl, ?_, ?_⟩
  · intro ht
    simp only [objectPrototypeMembers, List.mem_cons, List.mem_singleton,
      List.mem_nil_iff, or_false] at ht
    rcases ht with rfl | rfl | rfl | rfl | rfl | rfl | rfl | rfl | rfl | rfl | rfl | rfl
      <;> rfl
  · intro ht hp
    simp only [List.mem_cons, List.mem_singleton, not_or] at ht
    obtain ⟨h1, h2, h3, h4, h5, h6, _⟩ := ht
    simp [isHashedValidate, mapValidationByHashType, h1, h2, h3, h4, h5, h6, hp]

/-- Witness for the amended C3 theorem: the concrete unrecognized name `foo`
yields `undefined`, while the concrete prototype-member name `toString`
yields the inherited member. -/
theorem isHashed_dispatch_witness :
    isHashedValidate (some ("foo")) (JsValue.str ("abc")) = JsLookup.undefinedVal ∧
    isHashedValidate (some ("toString")) (JsValue.str ("abc")) = JsLookup.protoMember :=
  ⟨(isHashed_dispatch ("abc") ("foo")).2.2.2.2.2.2.2.2 (by decide) (by decide),
    (isHashed_dispatch ("abc") ("toString")).2.2.2.2.2.2.2.1 (by decide)⟩

/-- C8: `validate` returns `false` (the boolean — not `undefined`, not an
inherited member) for every non-string value, before any format dispatch
happens and regardless of the configured type option. -/
theorem isHashed_nonString_false (type? : Option String) (v : JsValue)
    (h : ∀ s, v ≠ JsValue.str s) : isHashedValidate type? v = JsLookup.boolean false := by
  cases v with
  | str s => exact absurd rfl (h s)
  | buf s => rfl
  | num n => rfl
  | boolean b => rfl
  | obj => rfl
  | null => rfl
  | undef => rfl

/-- Witness for C8: a number, a Buffer and `null` all validate to `false`,
whatever the configured type. -/
theorem isHashed_nonString_false_witness :
    isHashedValidate (some ("bcrypt")) (JsValue.num 42) = JsLookup.boolean false ∧
    isHashedValidate none (JsValue.buf ("abc")) = JsLookup.boolean false ∧
    isHashedValidate (some ("sha256")) JsValue.null = JsLookup.boolean false :=
  ⟨isHashed_nonString_false _ _ (fun _ h => JsValue.noConfusion h),
    isHashed_nonString_false _ _ (fun _ h => JsValue.noConfusion h),
    isHashed_nonString_false _ _ (fun _ h => JsValue.noConfusion h)⟩

/-! ## `HashBin` strategy holder (`hashbin.service.ts`)

```
export class HashBin<T extends IHashBinService = any> {
  private strategyInstance: T;
  public setInstance(strategy: T | { new (): T }): void { … }
  public getInstance(): T { return this.strategyInstance; }
}
```

The single slot starts out unassigned (JavaScript `undefined`, modelled as
`none`).  `setInstance` distinguishes a constructor from an instance with
`typeof strategy === 'function'` (service instances are plain objects, so the
`inst` form takes the `else` branch).  `getInstance` is a plain field read —
its body cannot throw, which is what `getInstanceCall` makes explicit. -/

/-- The holder: one optional slot. -/
structure HashBin (T : Type) where
  strategyInstance : Option T

/-- A freshly constructed holder: the slot is `undefined`. -/
def HashBin.holderInit (T : Type) : HashBin T := ⟨none⟩

/-- The argument of `setInstance`: either a ready-made instance (a plain
object, `typeof ≠ 'function'`) or a zero-argument constructor
(`typeof === 'function'`). -/
inductive StrategyArg (T : Type) where
  | inst : T → StrategyArg T
  | ctorFn : (Unit → T) → StrategyArg T

/-- Method `setInstance`: a constructor is instantiated immediately (`new strategy()`),
an instance is stored as-is. -/
def HashBin.setInstance {T : Type} (h : HashBin T) (strategy : StrategyArg T) : HashBin T :=
  match strategy with
  | .ctorFn f => { h with strategyInstance := some (f ()) }
  | .inst x => { h with strategyInstance := some x }

/-- Method `getInstance`: returns the slot's current content (`undefined` when the
slot was never set). -/
def HashBin.getInstance {T : Type} (h : HashBin T) : Option T := h.strategyInstance

/-- The observable outcome of a method call: a normal return (of a possibly-
`undefined` value) or a thrown error. -/
inductive CallResult (T : Type) where
  | ret : Option T → CallResult T
  | thrown : JsError → CallResult T

/-- Method `getInstance()` as a call: its body is `return this.strategyInstance`,
which always returns normally — no branch of it can throw. -/
def HashBin.getInstanceCall {T : Type} (h : HashBin T) : CallResult T :=
  .ret h.strategyInstance

/-- C2 counterexample: the claim says `getInstance()` before any
`setInstance()` fails with a `ConfigurationError`; in fact the call on an
empty holder returns normally, yielding `undefined` — it does not throw
anything, let alone a `ConfigurationError`. -/
theorem hashBin_getInstance_empty_no_error :
    HashBin.getInstanceCall (HashBin.holderInit Nat) = CallResult.ret none ∧
      HashBin.getInstanceCall (HashBin.holderInit Nat) ≠
        CallResult.thrown JsError.configurationError := by
  constructor
  · rfl
  · intro h
    exact CallResult.noConfusion h

/-- C2 amended: `getInstance()` before any `setInstance()` returns normally
with `undefined` (no error, but also no implicit default strategy); after
`setInstance(X)` with an instance `X`, `getInstance()` returns exactly `X`;
`setInstance` with a zero-argument constructor stores the fresh instance the
constructor produces. -/
theorem hashBin_holder_behaviour {T : Type} (h : HashBin T) (x : T) (f : Unit → T) :
    HashBin.getInstance (HashBin.holderInit T) = none ∧
    HashBin.getInstanceCall (HashBin.holderInit T) = CallResult.ret none ∧
    (h.setInstance (StrategyArg.inst x)).getInstance = some x ∧
    (h.setInstance (StrategyArg.ctorFn f)).getInstance = some (f ()) :=
  ⟨rfl, rfl, rfl, rfl⟩

/-! ## `Argon2Service` (`argon2.service.ts`)

```
async hash(data, options: Argon2Options = {}) {
  if (options != null) { return await this.argon2.hash(data, options); }
  else if (this.options) { return await this.argon2.hash(data, this.options); }
  return await this.argon2.hash(data);
}
```

The default parameter makes `options` the empty object `{}` whenever the
caller supplies no per-call options, and `{} != null` is `true`, so the first
branch always runs: the options object handed to the argon2 library is always
the per-call argument (or `{}`), and the two fallback branches that would use
the constructor-supplied `this.options` are unreachable. -/

/-- The subset of argon2 options exercised by the repository's own tests. -/
structure Argon2Options where
  memoryCost : Option Nat := none
  timeCost : Option Nat := none
  parallelism : Option Nat := none
deriving DecidableEq

/-- The options object `Argon2Service.hash` passes to `argon2.hash`:
the per-call options defaulted to `{}`; the constructor options are never
consulted because `options != null` already holds. -/
def Argon2Service.hashOptionsUsed (_ctorOpts : Option Argon2Options)
    (callOpts : Option Argon2Options) : Argon2Options :=
  let options : Argon2Options := callOpts.getD {}
  options

/-- Method `Argon2Service.hash`, with the argon2 library call abstracted as a
function of the data and the option object it receives. -/
def Argon2Service.hash (argon2Hash : String → Argon2Options → String)
    (ctorOpts : Option Argon2Options) (data : String)
    (callOpts : Option Argon2Options) : String :=
  argon2Hash data (Argon2Service.hashOptionsUsed ctorOpts callOpts)

/-- C5, evaluated at the failing input: an `Argon2Service` constructed with
`{ memoryCost: 8192 }` and asked to hash with no per-call options passes the
empty option object `{}` to the argon2 library — not the constructor options,
contradicting the claimed constructor-over-library precedence (the Pbkdf2
counterpart of the claim does hold, see `pbkdf2_option_precedence`). -/
theorem argon2_ctor_options_ignored :
    Argon2Service.hashOptionsUsed (some { memoryCost := some 8192 }) none = {} ∧
      ({} : Argon2Options) ≠ { memoryCost := some 8192 } := by
  constructor
  · rfl
  · intro h
    simpa using congrArg Argon2Options.memoryCost h

/-! ## `RsaService` (rsa.service.ts, `src/unnamed/part_002`)

```
generateKeyPair(options?: RsaPemOptions) {
  const { modulusLength, publicKeyEncoding, privateKeyEncoding } = this.getFinalOptions(options);
  return this.crypto.generateKeyPairSync('rsa', { … });
}
private getFinalOptions(options: RsaPemOptions) {
  return {
    modulusLength: 2048,
    publicKeyEncoding: options.publicKeyEncoding || this.options?.publicKeyEncoding || { type: 'spki', format: 'pem' },
    privateKeyEncoding: options.privateKeyEncoding || this.options?.privateKeyEncoding || { type: 'pkcs8', format: 'pem' },
  };
}
```

Two observations are visible directly in the source: `modulusLength` is the
literal `2048` — `options.modulusLength` is never read — and when
`generateKeyPair()` is called without an argument, `options` is `undefined`
inside `getFinalOptions`, so `options.publicKeyEncoding` throws a
`TypeError`. -/

/-- A `{ type, format }` key-encoding record. -/
structure KeyEncoding where
  type : String
  format : String
deriving DecidableEq

/-- The user-facing RSA options record (all fields optional). -/
structure RsaPemOptions where
  modulusLength : Option Nat := none
  publicKeyEncoding : Option KeyEncoding := none
  privateKeyEncoding : Option KeyEncoding := none
deriving DecidableEq

/-- The fully resolved options handed to `crypto.generateKeyPairSync`. -/
structure FinalRsaOptions where
  modulusLength : Nat
  publicKeyEncoding : KeyEncoding
  privateKeyEncoding : KeyEncoding
deriving DecidableEq

/-- Method `RsaService.getFinalOptions`.  Destructuring `undefined` throws; otherwise
each encoding falls back per-call → constructor → literal default, while
`modulusLength` is the hard-coded literal `2048`. -/
def RsaService.getFinalOptions (ctorOpts : Option RsaPemOptions)
    (options : Option RsaPemOptions) : Except JsError FinalRsaOptions :=
  match options with
  | none => .error .typeError
  | some o =>
      .ok { modulusLength := 2048
            publicKeyEncoding :=
              ((o.publicKeyEncoding).orElse
                (fun _ => ctorOpts.bind (·.publicKeyEncoding))).getD
                ⟨("spki"), ("pem")⟩
            privateKeyEncoding :=
              ((o.privateKeyEncoding).orElse
                (fun _ => ctorOpts.bind (·.privateKeyEncoding))).getD
                ⟨("pkcs8"), ("pem")⟩ }

/-- A generated key pair (PEM text), produced by the external
`crypto.generateKeyPairSync`, abstracted as a function of the resolved
options. -/
structure KeyPairResult where
  publicKey : String
  privateKey : String

/-- Method `RsaService.generateKeyPair`. -/
def RsaService.generateKeyPair (gen : FinalRsaOptions → KeyPairResult)
    (ctorOpts : Option RsaPemOptions) (callOpts : Option RsaPemOptions) :
    Except JsError KeyPairResult :=
  (RsaService.getFinalOptions ctorOpts callOpts).map gen

/-- C6, evaluated at the failing inputs: `generateKeyPair()` with no options
throws a `TypeError` instead of succeeding with the defaults (this is the
call the repository's own `rsa.service.spec.ts` makes and expects to
succeed), and a supplied `modulusLength` of 4096 is ignored — the resolved
options still carry the hard-coded 2048.  The encoding defaults themselves
(spki/pem and pkcs8/pem) are as the spec states, and a supplied encoding does
override them. -/
theorem rsa_generateKeyPair_divergences (gen : FinalRsaOptions → KeyPairResult) :
    RsaService.generateKeyPair gen none none = Except.error JsError.typeError ∧
    RsaService.getFinalOptions none (some { modulusLength := some 4096 }) =
      Except.ok { modulusLength := 2048,
                  publicKeyEncoding := ⟨("spki"), ("pem")⟩,
                  privateKeyEncoding := ⟨("pkcs8"), ("pem")⟩ } ∧
    RsaService.getFinalOptions none
        (some { publicKeyEncoding := some ⟨("pkcs1"), ("der")⟩ }) =
      Except.ok { modulusLength := 2048,
                  publicKeyEncoding := ⟨("pkcs1"), ("der")⟩,
                  privateKeyEncoding := ⟨("pkcs8"), ("pem")⟩ } :=
  ⟨rfl, rfl, rfl⟩

/-! ## Base64 (`Buffer.prototype.toString('base64')`)

`Pbkdf2Strategy.hash` returns `derivedKey.toString('base64')`.  The encoding
is implemented concretely on byte lists (`Fin 256`), together with a decoder
and a round-trip proof, from which injectivity of the encoding follows — the
fact needed to transfer distinctness of derived keys to distinctness of the
returned hash strings. -/

/-- The base64 alphabet. -/
def b64Alphabet : List Char :=
  (("ABCDEFGHIJKLMNOPQRSTUVWXYZabcdefghijklmnopqrstuvwxyz0123456789+/") : String).data

/-- The alphabet character at index `i` (only used with `i < 64`). -/
def b64Char (i : Nat) : Char := b64Alphabet.getD i '*'

/-- The index of a character in the alphabet. -/
def b64Index (c : Char) : Nat := b64Alphabet.indexOf c

/-- Standard base64 encoding of a byte list, with `=` padding. -/
def b64EncodeChars : List (Fin 256) → List Char
  | a :: b :: c :: rest =>
      b64Char (a.val / 4) :: b64Char (a.val % 4 * 16 + b.val / 16) ::
        b64Char (b.val % 16 * 4 + c.val / 64) :: b64Char (c.val % 64) ::
        b64EncodeChars rest
  | [a, b] => [b64Char (a.val / 4), b64Char (a.val % 4 * 16 + b.val / 16),
      b64Char (b.val % 16 * 4), '=']
  | [a] => [b64Char (a.val / 4), b64Char (a.val % 4 * 16), '=', '=']
  | [] => []

/-- Base64 decoding (to plain `Nat` byte values); inverse of `b64EncodeChars`
on its image. -/
def b64DecodeNat : List Char → List Nat
  | c1 :: c2 :: c3 :: c4 :: rest =>
      if c3 = '=' then [b64Index c1 * 4 + b64Index c2 / 16]
      else if c4 = '=' then
        [b64Index c1 * 4 + b64Index c2 / 16, b64Index c2 % 16 * 16 + b64Index c3 / 4]
      else
        (b64Index c1 * 4 + b64Index c2 / 16) ::
          (b64Index c2 % 16 * 16 + b64Index c3 / 4) ::
          (b64Index c3 % 4 * 64 + b64Index c4) :: b64DecodeNat rest
  | _ => []

theorem b64Index_b64Char_fin : ∀ i : Fin 64, b64Index (b64Char i.val) = i.val := by
  decide

theorem b64Index_b64Char {n : Nat} (h : n < 64) : b64Index (b64Char n) = n :=
  b64Index_b64Char_fin ⟨n, h⟩

theorem b64Char_ne_pad_fin : ∀ i : Fin 64, b64Char i.val ≠ '=' := by
  decide

theorem b64Char_ne_pad {n : Nat} (h : n < 64) : b64Char n ≠ '=' :=
  b64Char_ne_pad_fin ⟨n, h⟩

theorem b64_roundtrip : ∀ l : List (Fin 256), b64DecodeNat (b64EncodeChars l) = l.map Fin.val
  | [] => rfl
  | [⟨a, ha⟩] => by
      have h1 := b64Index_b64Char (n := a / 4) (by omega)
      have h2 := b64Index_b64Char (n := a % 4 * 16) (by omega)
      show b64DecodeNat [b64Char (a / 4), b64Char (a % 4 * 16), '=', '='] = [a]
      rw [b64DecodeNat, if_pos rfl, h1, h2]
      simp only [List.cons.injEq, and_true]
      omega
  | [⟨a, ha⟩, ⟨b, hb⟩] => by
      have h1 := b64Index_b64Char (n := a / 4) (by omega)
      have h2 := b64Index_b64Char (n := a % 4 * 16 + b / 16) (by omega)
      have h3 := b64Index_b64Char (n := b % 16 * 4) (by omega)
      have hne := b64Char_ne_pad (n := b % 16 * 4) (by omega)
      show b64DecodeNat [b64Char (a / 4), b64Char (a % 4 * 16 + b / 16),
        b64Char (b % 16 * 4), '='] = [a, b]
      rw [b64DecodeNat, if_neg hne, if_pos rfl, h1, h2, h3]
      simp only [List.cons.injEq, and_true]
      constructor <;> omega
  | ⟨a, ha⟩ :: ⟨b, hb⟩ :: ⟨c, hc⟩ :: rest => by
      have h1 := b64Index_b64Char (n := a / 4) (by omega)
      have h2 := b64Index_b64Char (n := a % 4 * 16 + b / 16) (by omega)
      have h3 := b64Index_b64Char (n := b % 16 * 4 + c / 64) (by omega)
      have h4 := b64Index_b64Char (n := c % 64) (by omega)
      have hne3 := b64Char_ne_pad (n := b % 16 * 4 + c / 64) (by omega)
      have hne4 := b64Char_ne_pad (n := c % 64) (by omega)
      have ih := b64_roundtrip rest
      show b64DecodeNat (b64Char (a / 4) :: b64Char (a % 4 * 16 + b / 16) ::
        b64Char (b % 16 * 4 + c / 64) :: b64Char (c % 64) :: b64EncodeChars rest) =
        a :: b :: c :: rest.map Fin.val
      rw [b64DecodeNat, if_neg hne3, if_neg hne4, h1, h2, h3, h4, ih]
      simp only [List.cons.injEq, and_true]
      exact ⟨by omega, by omega, by omega⟩

theorem b64EncodeChars_injective {l1 l2 : List (Fin 256)}
    (h : b64EncodeChars l1 = b64EncodeChars l2) : l1 = l2 := by
  have h' := congrArg b64DecodeNat h
  rw [b64_roundtrip, b64_roundtrip] at h'
  exact List.map_injective_iff.mpr Fin.val_injective h'

/-! ## `Pbkdf2Strategy` (`pbkdf2.service.ts`)

The constructor stores the user options unchanged when given, and otherwise
fills in the library-internal defaults (a random 16-byte salt — modelled by a
`randomSalt` parameter — 1000 iterations, keylen 64, digest sha256).
`getFinalOptions` merges per-call options over the stored ones with `??`
(nullish coalescing).  `hash` runs `crypto.pbkdf2` — abstracted as a function
`prim` of data, salt, iterations, keylen and digest returning the derived key
bytes — and base64-encodes the result; Node rejects `undefined` parameters
with a `TypeError`.  `compare` re-resolves the options (per-call defaulted to
the stored options via `options = this.options || {}`), re-hashes `data` with
the four resolved fields and string-compares against `hashed` (for a string,
`hashed.toString('base64')` is `hashed` itself — `String.prototype.toString`
ignores arguments). -/

/-- The PBKDF2 option record. -/
structure Pbkdf2Options where
  salt : Option String := none
  iterations : Option Nat := none
  keylen : Option Nat := none
  digest : Option String := none
deriving DecidableEq

/-- The type of the external `crypto.pbkdf2` primitive: data, salt,
iterations, keylen, digest to derived-key bytes. -/
def Pbkdf2Fn : Type := String → String → Nat → Nat → String → List (Fin 256)

/-- The options stored by the constructor: the user's record unchanged, or
the library-internal defaults (with the freshly generated random salt). -/
def Pbkdf2Strategy.resolvedCtorOptions (userOpts : Option Pbkdf2Options)
    (randomSalt : String) : Pbkdf2Options :=
  match userOpts with
  | some o => o
  | none => { salt := some randomSalt, iterations := some 1000, keylen := some 64,
              digest := some ("sha256") }

/-- Method `Pbkdf2Strategy.getFinalOptions`: each field is
`options.field ?? this.options.field`. -/
def Pbkdf2Strategy.getFinalOptions (ctorOpts options : Pbkdf2Options) : Pbkdf2Options :=
  { salt := options.salt.orElse (fun _ => ctorOpts.salt)
    iterations := options.iterations.orElse (fun _ => ctorOpts.iterations)
    keylen := options.keylen.orElse (fun _ => ctorOpts.keylen)
    digest := options.digest.orElse (fun _ => ctorOpts.digest) }

/-- Method `Pbkdf2Strategy.hash`: resolve the options (per-call defaulted to `{}`),
derive the key, base64-encode it.  A still-missing field reaches
`crypto.pbkdf2` as `undefined`, which throws a `TypeError`. -/
def Pbkdf2Strategy.hash (prim : Pbkdf2Fn) (ctorOpts : Pbkdf2Options) (data : String)
    (callOpts : Option Pbkdf2Options) : Except JsError String :=
  let options := callOpts.getD {}
  let f := Pbkdf2Strategy.getFinalOptions ctorOpts options
  match f.salt, f.iterations, f.keylen, f.digest with
  | some salt, some iterations, some keylen, some digest =>
      .ok (String.mk (b64EncodeChars (prim data salt iterations keylen digest)))
  | _, _, _, _ => .error .typeError

/-- Method `Pbkdf2Strategy.compare`: re-resolve the options, re-hash `data` with the
four resolved fields and string-compare with `hashed`. -/
def Pbkdf2Strategy.compare (prim : Pbkdf2Fn) (ctorOpts : Pbkdf2Options)
    (data hashed : String) (callOpts : Option Pbkdf2Options) : Except JsError Bool :=
  let options := callOpts.getD ctorOpts
  let f := Pbkdf2Strategy.getFinalOptions ctorOpts options
  (Pbkdf2Strategy.hash prim ctorOpts data (some f)).map (fun h => h == hashed)

/-- The Pbkdf2 half of the option-precedence contract: with an empty per-call
record every constructor-supplied field is the one applied. -/
theorem pbkdf2_option_precedence (ctorOpts : Pbkdf2Options) :
    Pbkdf2Strategy.getFinalOptions ctorOpts {} = ctorOpts :=
  rfl

/-- C7: for every primitive, constructor options, data and complete option
set `opts = {salt, iterations, keylen, digest}`: `hash data opts` succeeds
with the base64 encoding of the derived key, `compare data (hash data opts)
opts` is `true`, and — given that the primitive derives different keys for
two different salts `s1 ≠ s2` (the overwhelming-probability event the claim
appeals to) — the hashes under `s1` and `s2` differ. -/
theorem pbkdf2_compare_roundtrip_and_salt_sensitivity
    (prim : Pbkdf2Fn) (ctorOpts : Pbkdf2Options) (data s s1 s2 : String)
    (iterations keylen : Nat) (digest : String)
    (hprim : prim data s1 iterations keylen digest ≠ prim data s2 iterations keylen digest) :
    Pbkdf2Strategy.hash prim ctorOpts data
        (some ⟨some s, some iterations, some keylen, some digest⟩) =
      Except.ok (String.mk (b64EncodeChars (prim data s iterations keylen digest))) ∧
    Pbkdf2Strategy.compare prim ctorOpts data
        (String.mk (b64EncodeChars (prim data s iterations keylen digest)))
        (some ⟨some s, some iterations, some keylen, some digest⟩) =
      Except.ok true ∧
    Pbkdf2Strategy.hash prim ctorOpts data
        (some ⟨some s1, some iterations, some keylen, some digest⟩) ≠
      Pbkdf2Strategy.hash prim ctorOpts data
        (some ⟨some s2, some iterations, some keylen, some digest⟩) := by
  refine ⟨rfl, ?_, ?_⟩
  · show Except.ok (decide _) = Except.ok true
    simp
  · intro h
    have h1 : Pbkdf2Strategy.hash prim ctorOpts data
        (some ⟨some s1, some iterations, some keylen, some digest⟩) =
        Except.ok (String.mk (b64EncodeChars (prim data s1 iterations keylen digest))) := rfl
    have h2 : Pbkdf2Strategy.hash prim ctorOpts data
        (some ⟨some s2, some iterations, some keylen, some digest⟩) =
        Except.ok (String.mk (b64EncodeChars (prim data s2 iterations keylen digest))) := rfl
    rw [h1, h2] at h
    injection h with h'
    injection h' with h''
    exact hprim (b64EncodeChars_injective h'')

/-- Witness for C7 at a concrete primitive (deriving `[min |salt| 255]` as the
key) with salts `""` and `"a"`. -/
theorem pbkdf2_compare_roundtrip_witness :
    Pbkdf2Strategy.compare
        (fun _ salt _ _ _ => [⟨min salt.length 255, by omega⟩]) {} ("pw")
        (String.mk (b64EncodeChars
          ((fun (_ salt : String) (_ _ : Nat) (_ : String) =>
            [(⟨min salt.length 255, by omega⟩ : Fin 256)]) ("pw") ("") 1 32 ("sha256"))))
        (some ⟨some (""), some 1, some 32, some ("sha256")⟩) = Except.ok true ∧
    Pbkdf2Strategy.hash
        (fun _ salt _ _ _ => [⟨min salt.length 255, by omega⟩]) {} ("pw")
        (some ⟨some (""), some 1, some 32, some ("sha256")⟩) ≠
      Pbkdf2Strategy.hash
        (fun _ salt _ _ _ => [⟨min salt.length 255, by omega⟩]) {} ("pw")
        (some ⟨some ("a"), some 1, some 32, some ("sha256")⟩) :=
  ⟨(pbkdf2_compare_roundtrip_and_salt_sensitivity
      (fun _ salt _ _ _ => [⟨min salt.length 255, by omega⟩]) {} ("pw") ("") ("") ("a")
      1 32 ("sha256") (by decide)).2.1,
    (pbkdf2_compare_roundtrip_and_salt_sensitivity
      (fun _ salt _ _ _ => [⟨min salt.length 255, by omega⟩]) {} ("pw") ("") ("") ("a")
      1 32 ("sha256") (by decide)).2.2⟩

/-! ## `BcryptService` (`bcrypt.service.ts`)

```
private getSalt(options?: BcryptOptions) {
  let salt;
  if (options?.salt) { salt = options.salt; }
  else if (!options?.salt && options?.rounds) { salt = this.bcrypt.genSaltSync(options?.rounds); }
  else { salt = this.bcrypt.genSaltSync(); }
  return salt;
}
async hash(data, options?) { const salt = this.getSalt(options); return await this.bcrypt.hash(data, salt); }
```

JavaScript truthiness governs the branches: a present non-empty salt string
is truthy, a present non-zero rounds number is truthy.  `bcrypt.hash` with an
explicit salt is a deterministic function of data and salt, abstracted as
`bcryptHash`; `genSaltSync` is the randomized salt generator, abstracted as
`genSaltSync : Option Nat → String` (its argument: the rounds value, or
`none` for the no-argument call). -/

/-- The bcrypt option record. -/
structure BcryptOptions where
  salt : Option String := none
  rounds : Option Nat := none
deriving DecidableEq

/-- JavaScript truthiness of `options?.field` for a string field: present and
non-empty. -/
def optStrTruthy : Option String → Bool
  | some s => !(s == "")
  | none => false

/-- JavaScript truthiness of `options?.field` for a number field: present and
non-zero. -/
def optNatTruthy : Option Nat → Bool
  | some n => !(n == 0)
  | none => false

/-- Method `BcryptService.getSalt`. -/
def BcryptService.getSalt (genSaltSync : Option Nat → String)
    (options : Option BcryptOptions) : String :=
  if optStrTruthy (options.bind (·.salt)) then (options.bind (·.salt)).getD ("")
  else if !optStrTruthy (options.bind (·.salt)) && optNatTruthy (options.bind (·.rounds))
    then genSaltSync (options.bind (·.rounds))
  else genSaltSync none

/-- Method `BcryptService.hash`: `bcrypt.hash(data, this.getSalt(options))`. -/
def BcryptService.hash (bcryptHash : String → String → String)
    (genSaltSync : Option Nat → String) (data : String)
    (options : Option BcryptOptions) : String :=
  bcryptHash data (BcryptService.getSalt genSaltSync options)

/-- C10: whenever the per-call options carry a non-empty salt `s`, the
`rounds` option is ignored entirely and the salt generator is never
consulted: the hash equals `bcrypt.hash data s` for every rounds value and
every generator — in particular `hash(data, {salt: s, rounds: r}) =
hash(data, {salt: s})`, deterministically for fixed data and salt.  When no
salt is supplied, a non-zero `rounds` is what reaches `genSaltSync`. -/
theorem bcrypt_salt_overrides_rounds (bcryptHash : String → String → String)
    (gen gen' : Option Nat → String) (data s : String) (r r' : Option Nat)
    (hs : s ≠ "") :
    BcryptService.hash bcryptHash gen data (some ⟨some s, r⟩) = bcryptHash data s ∧
    BcryptService.hash bcryptHash gen data (some ⟨some s, r⟩) =
      BcryptService.hash bcryptHash gen' data (some ⟨some s, r'⟩) ∧
    (∀ n, n ≠ 0 →
      BcryptService.hash bcryptHash gen data (some ⟨none, some n⟩) =
        bcryptHash data (gen (some n))) := by
  have htruthy : optStrTruthy ((some (⟨some s, r⟩ : BcryptOptions)).bind (·.salt)) = true := by
    simp [optStrTruthy, hs]
  refine ⟨?_, ?_, ?_⟩
  · rw [BcryptService.hash, BcryptService.getSalt, if_pos htruthy]
    rfl
  · rw [BcryptService.hash, BcryptService.getSalt, if_pos htruthy,
      BcryptService.hash, BcryptService.getSalt, if_pos (by simp [optStrTruthy, hs])]
    rfl
  · intro n hn
    rw [BcryptService.hash, BcryptService.getSalt]
    rw [if_neg (by simp [optStrTruthy]), if_pos (by simp [optStrTruthy, optNatTruthy, hn])]
    rfl

/-- Witness for C10 at concrete functions and values. -/
theorem bcrypt_salt_overrides_rounds_witness :
    BcryptService.hash (fun d t => d ++ t) (fun _ => ("G")) ("pw")
        (some ⟨some ("SALT"), some 12⟩) = ("pw") ++ ("SALT") ∧
    BcryptService.hash (fun d t => d ++ t) (fun _ => ("G")) ("pw")
        (some ⟨some ("SALT"), some 12⟩) =
      BcryptService.hash (fun d t => d ++ t) (fun _ => ("H")) ("pw")
        (some ⟨some ("SALT"), none⟩) :=
  ⟨(bcrypt_salt_overrides_rounds (fun d t => d ++ t) (fun _ => ("G")) (fun _ => ("H"))
      ("pw") ("SALT") (some 12) none (by decide)).1,
    (bcrypt_salt_overrides_rounds (fun d t => d ++ t) (fun _ => ("G")) (fun _ => ("H"))
      ("pw") ("SALT") (some 12) none (by decide)).2.1⟩

end Hashbin
